import Mathlib

/-!
# GpuManager: byte-exact transport and the batching dispatcher

A shallow embedding of

* `GpuIpc/src/SocketServer.cpp` (`readBytes`, `writeBytes`), and
* `GpuServer/src/MainServer.cpp` (`process`, `loadHandler`, `addSize`,
  `allocVector`, `createInvalidHandlerMsg`, `getHandlerByName`,
  `processQueue`),

followed by theorems about them.  `size_t` is taken to be 64 bits wide and
`unsigned int` / `uint32_t` 32 bits wide (x86-64 Linux, the platform Brunel is
built for); machine arithmetic is written with explicit `%`.
-/

namespace SocketServer

/-- The underlying `read(2)` / `write(2)` system call on `m_socket`, as seen by
one transfer: the result (an `ssize_t`) of the call number `k` (counted from 0)
when it is asked for `n` bytes. -/
abbrev Channel := Nat → Nat → Int

/-- How a transfer ends: a normal return, or one of the two exception classes
thrown in `SocketServer.cpp`, with the text passed to the constructor. -/
inductive Outcome where
  | returned
  | ioException (what : String)
  | systemException (what : String)
  deriving DecidableEq, Repr

/-- One call of the underlying system call: the byte count asked for
(`size - total`) and the result that came back. -/
structure Call where
  requested : Nat
  result : Int
  deriving DecidableEq, Repr

/-- Number of bytes delivered by a sequence of calls (the sum of the results,
each cast with `static_cast<size_t>`; every counted result is positive). -/
def received (calls : List Call) : Nat :=
  (calls.map fun c => c.result.toNat).sum

/-- The `while (total < size)` loop of `SocketServer::readBytes`
(SocketServer.cpp lines 31-39) with `total` the running count and `k` the number
of `read` calls made so far.  The first argument bounds the number of
iterations; `none` means the bound was reached with the loop still running. -/
def readLoop (read : Channel) (size : Nat) : Nat → Nat → Nat → Option (Outcome × List Call)
  | 0, total, _ =>
    if total < size then none else some (Outcome.returned, [])
  | fuel + 1, total, k =>
    if total < size then
      let got := read k (size - total)
      if got = 0 then
        some (Outcome.ioException "Received 0 bytes.", [⟨size - total, got⟩])
      else if got < 0 then
        some (Outcome.systemException "Read error.", [⟨size - total, got⟩])
      else
        (readLoop read size fuel ((total + got.toNat) % 2 ^ 64) (k + 1)).map
          fun r => (r.1, ⟨size - total, got⟩ :: r.2)
    else some (Outcome.returned, [])

/-- `SocketServer::readBytes(data, size)`: the loop started at `total = 0`.
`size` iterations are always enough when `read` never returns more than it was
asked for (see `readLoop_spec`). -/
def readBytes (read : Channel) (size : Nat) : Option (Outcome × List Call) :=
  readLoop read size size 0 0

/-- The `while (total < size)` loop of `SocketServer::writeBytes`
(SocketServer.cpp lines 43-49).  Only a negative result is tested; a result of
zero adds nothing to `total` and the loop goes round again. -/
def writeLoop (write : Channel) (size : Nat) : Nat → Nat → Nat → Option (Outcome × List Call)
  | 0, total, _ =>
    if total < size then none else some (Outcome.returned, [])
  | fuel + 1, total, k =>
    if total < size then
      let sent := write k (size - total)
      if sent < 0 then
        some (Outcome.systemException "Write error.", [⟨size - total, sent⟩])
      else
        (writeLoop write size fuel ((total + sent.toNat) % 2 ^ 64) (k + 1)).map
          fun r => (r.1, ⟨size - total, sent⟩ :: r.2)
    else some (Outcome.returned, [])

end SocketServer

namespace MainServer

/-- A byte buffer (`Data`, a `std::vector<uint8_t>`): the list of its bytes. -/
abbrev Data := List Nat

/-- A `uint8_t *` into one of the output buffers of a batch: the slot it points
into and the byte offset inside that slot. -/
structure Ptr where
  slot : Nat
  offset : Nat
  deriving DecidableEq, Repr

/-- One use a handler makes of the allocation callback: it calls
`allocVector(index, size, param)` and stores `bytes` through the pointer that
comes back. -/
structure AllocRequest where
  index : Nat
  size : Nat
  bytes : Data
  deriving DecidableEq, Repr

/-- How a handler invocation ends: it returns, it throws a `std::exception`
whose `what()` is the given text, or it throws an object of a type that is not
derived from `std::exception` (which has no `what()`). -/
inductive HandlerEnd where
  | returns
  | throws (what : String)
  | throwsOther
  deriving DecidableEq, Repr

/-- Everything one handler invocation does that the server can observe. -/
structure HandlerRun where
  allocs : List AllocRequest
  finish : HandlerEnd
  deriving DecidableEq, Repr

/-- Modelled from the spec: the handler capability (`IGpuHandler`, declared in
GpuHandler/IGpuHandler.h, which is not among the sources).  It is an opaque
callable given the list of input buffers, the allocation callback and the list
of output slots; it may fail, and a failure carries a message.  Being C++ code
it may also throw an object that is no `std::exception`.  Here: the run it
performs on a given list of inputs. -/
abbrev IGpuHandler := List Data → HandlerRun

/-- Modelled from the spec: the request record (`DataPacket`, declared in
DataPacket.h, which is not among the sources): handler name, input buffer,
output buffer and an optional failure message.  `Input()` and `Output()` are the
fields `input` and `output`. -/
structure DataPacket where
  name : String
  input : Data
  output : Data
  exceptionMessage : Option String
  deriving DecidableEq, Repr

/-- Modelled from the spec: `DataPacket::SetExceptionMessage` records a failure
message on the request. -/
def DataPacket.SetExceptionMessage (p : DataPacket) (msg : String) : DataPacket :=
  ⟨p.name, p.input, p.output, some msg⟩

/-- Modelled from the spec: `DataPacket::ExceptionThrown`, whether a failure
message has been recorded. -/
def DataPacket.ExceptionThrown (p : DataPacket) : Bool :=
  p.exceptionMessage.isSome

/-- Modelled from the spec: `DataPacket::ExceptionMessage`, the recorded
failure message. -/
def DataPacket.ExceptionMessage (p : DataPacket) : String :=
  p.exceptionMessage.getD ""

/-- `m_handlers.find(name)` on the entries of the handler map. -/
def findEntry (name : String) : List (String × IGpuHandler) → Option IGpuHandler
  | [] => none
  | (k, v) :: rest => if k = name then some v else findEntry name rest

/-- `m_handlers[name] = handler` on the entries of the handler map, kept in key
order: an entry with the same key is replaced, otherwise a new entry is put at
its place in the order. -/
def assignEntry (name : String) (handler : IGpuHandler) :
    List (String × IGpuHandler) → List (String × IGpuHandler)
  | [] => [(name, handler)]
  | (k, v) :: rest =>
    if name = k then (name, handler) :: rest
    else if name < k then (name, handler) :: (k, v) :: rest
    else (k, v) :: assignEntry name handler rest

/-- Modelled from the spec: the handler registry `m_handlers` (`HandlerMap`,
declared in MainServer.h, which is not among the sources), taken to be a
`std::map<std::string, IGpuHandler*>`: entries in increasing key order, so no
key occurs twice. -/
structure HandlerMap where
  entries : List (String × IGpuHandler)
  sorted : (entries.map Prod.fst).Pairwise (· < ·)

/-- The registered handler names, in iteration order. -/
def HandlerMap.names (m : HandlerMap) : List String :=
  m.entries.map Prod.fst

/-- `m_handlers.find(name)`; `none` stands for `m_handlers.end()`. -/
def HandlerMap.find (m : HandlerMap) (name : String) : Option IGpuHandler :=
  findEntry name m.entries

/-- The body of the range-for in `createInvalidHandlerMsg` (lines 147-154):
`first` is the flag of that name and `msg` the stream written so far. -/
def appendNames : Bool → String → List String → String
  | _, msg, [] => msg
  | first, msg, k :: rest =>
    appendNames false ((if first then msg else msg ++ ", ") ++ k) rest

/-- `MainServer::createInvalidHandlerMsg(handler)` (lines 143-157). -/
def createInvalidHandlerMsg (m : HandlerMap) (handler : String) : String :=
  let msg := "" ++ "invalid handler name: " ++ handler ++ "; "
  let msg := msg ++ "valid handlers: "
  let msg := appendNames true msg m.names
  msg ++ "."

/-- `MainServer::getHandlerByName(name)` (lines 159-165): the handler, or the
`runtime_error` thrown, given by its message. -/
def getHandlerByName (m : HandlerMap) (name : String) : Except String IGpuHandler :=
  match m.find name with
  | none => Except.error (createInvalidHandlerMsg m name)
  | some h => Except.ok h

/-- `MainServer::addSize(total, data)` (lines 126-128), in `size_t`. -/
def addSize (total : Nat) (data : Data) : Nat :=
  (total + data.length) % 2 ^ 64

/-- `std::accumulate(first, last, 0u, addSize)` as called on lines 200-201.  The
accumulator has the type of the initial value `0u`, `unsigned int`, so each
`init = addSize(init, *first)` converts the `size_t` result to 32 bits. -/
def accumulate (buffers : List Data) (init : Nat) : Nat :=
  buffers.foldl (fun acc d => addSize acc d % 2 ^ 32) init

/-- `std::vector::resize(size)` on a byte buffer: cut, or fill up with zeros. -/
def resize (d : Data) (size : Nat) : Data :=
  d.take size ++ List.replicate (size - d.length) 0

/-- The `what()` of the `std::out_of_range` thrown by `std::vector::at` for
index `n` on a vector of `size` elements (the text is that of libstdc++). -/
def outOfRange (n size : Nat) : String :=
  "vector::_M_range_check: __n (which is " ++ toString n
    ++ ") >= this->size() (which is " ++ toString size ++ ")"

/-- `MainServer::allocVector(index, size, param)` (lines 130-141), `param`
being the list of output slots: the pointer returned (`none` for `nullptr`)
or the exception thrown, and the slots afterwards. -/
def allocVector (index size : Nat) (param : List Data) :
    Except String (Option Ptr) × List Data :=
  if size = 0 then (Except.ok none, param)
  else
    match param[index]? with
    | none => (Except.error (outOfRange index param.length), param)
    | some data => (Except.ok (some ⟨index, 0⟩), param.set index (resize data size))

/-- What a handler does with the pointer `allocVector` gave it: the bytes it
stores overwrite the start of the slot, inside the slot's size; nothing is
stored through `nullptr`. -/
def store (p : Option Ptr) (bytes : Data) (slots : List Data) : List Data :=
  match p with
  | none => slots
  | some ptr =>
    match slots[ptr.slot]? with
    | none => slots
    | some d => slots.set ptr.slot ((bytes ++ d.drop bytes.length).take d.length)

/-- The allocation calls of one handler run, in order, on the output slots.  An
exception leaving `allocVector` ends the run. -/
def runAllocs : List AllocRequest → List Data → Except String Unit × List Data
  | [], slots => (Except.ok (), slots)
  | a :: rest, slots =>
    match allocVector a.index a.size slots with
    | (Except.error e, slots1) => (Except.error e, slots1)
    | (Except.ok p, slots1) => runAllocs rest (store p a.bytes slots1)

/-- The call `(*handler)(input, allocVector, &output)` on line 190: how it ends
and the output slots afterwards. -/
def invoke (handler : IGpuHandler) (input output : List Data) : HandlerEnd × List Data :=
  match runAllocs (handler input).allocs output with
  | (Except.error e, slots) => (HandlerEnd.throws e, slots)
  | (Except.ok _, slots) => ((handler input).finish, slots)

/-- What the worker thread does that others can observe.  The time stamp and
the elapsed seconds of a performance record are left out. -/
inductive Event where
  | invoked (name : String) (batchSize : Nat)
  | setExceptionMessage (i : Nat) (msg : String)
  | perfRecord (name : String) (totalInputSize totalOutputSize batchSize : Nat)
  | signal (i : Nat)
  deriving DecidableEq, Repr

/-- Whether an event is a `Signal()` on some request. -/
def Event.isSignal : Event → Bool
  | Event.signal _ => true
  | _ => false

/-- Whether an event is a performance record. -/
def Event.isPerfRecord : Event → Bool
  | Event.perfRecord _ _ _ _ => true
  | _ => false

/-- The "prepare data" loop of `processQueue` (lines 177-183): the input
buffers and the output slots of the batch, in batch order. -/
def prepareData (batch : List DataPacket) : List Data × List Data :=
  (batch.map fun p => p.input, batch.map fun p => p.output)

/-- The output slots are the requests' own output buffers (`Output()` returns
a pointer): what the handler left in slot `i` is the output of request `i`. -/
def writeBack (batch : List DataPacket) (slots : List Data) : List DataPacket :=
  List.zipWith (fun p o => ⟨p.name, p.input, o, p.exceptionMessage⟩) batch slots

/-- One step of the worker thread inside an iteration: the event, and the
requests of the batch as they are right after it. -/
abbrev Step := Event × List DataPacket

/-- The requests as they are after the given steps (`init` when there is no
step). -/
def lastState : List Step → List DataPacket → List DataPacket
  | [], init => init
  | s :: rest, _ => lastState rest s.2

/-- The loop of the `catch` block (lines 194-195), `done` being the requests
already visited and the second list those still to visit: each iteration sets
the failure message of the next request. -/
def setExceptionLoop (what : String) : List DataPacket → List DataPacket → List Step
  | _, [] => []
  | done, p :: todo =>
    (Event.setExceptionMessage done.length what,
      done ++ p.SetExceptionMessage what :: todo)
      :: setExceptionLoop what (done ++ [p.SetExceptionMessage what]) todo

/-- The "wake up the clients" loop (lines 207-208): one `Signal()` for each
request, in batch order; the requests are not changed. -/
def signalLoop (batch : List DataPacket) : List Step :=
  (List.range batch.length).map fun i => (Event.signal i, batch)

/-- One iteration of the loop of `processQueue` from line 177 on, the handler
being resolved, step by step.  A `std::exception` from the handler is caught
on line 192; any other object thrown leaves the `try` block uncaught, and
lines 198-208 are not reached. -/
def processBatchSteps (handler : IGpuHandler) (name : String) (batch : List DataPacket) :
    List Step :=
  let input := (prepareData batch).1
  let output := (prepareData batch).2
  let size := batch.length
  let ran := invoke handler input output
  let batch1 := writeBack batch ran.2
  let totalInputSize := accumulate input 0
  let totalOutputSize := accumulate ran.2 0
  match ran.1 with
  | HandlerEnd.throwsOther => [(Event.invoked name size, batch1)]
  | HandlerEnd.returns =>
    (Event.invoked name size, batch1)
      :: (Event.perfRecord name totalInputSize totalOutputSize size, batch1)
      :: signalLoop batch1
  | HandlerEnd.throws what =>
    let caught := setExceptionLoop what [] batch1
    let batch2 := lastState caught batch1
    (Event.invoked name size, batch1)
      :: (caught ++ (Event.perfRecord name totalInputSize totalOutputSize size, batch2)
        :: signalLoop batch2)

/-- One iteration of the loop of `processQueue` from line 177 on, the handler
being resolved: the requests of the batch afterwards, and the events in the
order they happen. -/
def processBatch (handler : IGpuHandler) (name : String) (batch : List DataPacket) :
    List DataPacket × List Event :=
  (lastState (processBatchSteps handler name batch) batch,
   (processBatchSteps handler name batch).map Prod.fst)

/-- Modelled from the spec: what `m_dataQueue.pop(name, batch)` does (the queue
is declared in a header that is not among the sources): it delivers a handler
name with a batch, or fails with the interrupted condition. -/
inductive PopResult where
  | batch (name : String) (packets : List DataPacket)
  | interrupted
  deriving DecidableEq, Repr

/-- How a run of `processQueue` ends: it returns, a `std::exception` with the
given `what()` leaves it, an object that is no `std::exception` leaves it, or
it is still blocked in `pop` when the given pops are used up. -/
inductive LoopEnd where
  | returned
  | uncaught (what : String)
  | uncaughtOther
  | blocked
  deriving DecidableEq, Repr

/-- `MainServer::processQueue` (lines 167-215) run against the results of the
successive `pop` calls: the events, and how the run ends.  The function-try-block
catches `Queue::InterruptedError` only. -/
def processQueue (m : HandlerMap) : List PopResult → List Event × LoopEnd
  | [] => ([], LoopEnd.blocked)
  | PopResult.interrupted :: _ => ([], LoopEnd.returned)
  | PopResult.batch name batch :: rest =>
    match getHandlerByName m name with
    | Except.error what => ([], LoopEnd.uncaught what)
    | Except.ok handler =>
      match (invoke handler (prepareData batch).1 (prepareData batch).2).1 with
      | HandlerEnd.throwsOther => ((processBatch handler name batch).2, LoopEnd.uncaughtOther)
      | _ =>
        ((processBatch handler name batch).2 ++ (processQueue m rest).1,
         (processQueue m rest).2)

/-- The sentinel `FAIL_FLAG` of `MainServer::process` (line 52). -/
def FAIL_FLAG : Nat := 0xFFFFFFFF

/-- What `MainServer::process` does that others can observe: what it writes
to the protocol, the push on the queue, the wait, and the data-log record.
`writeUInt32` carries the 32-bit value written; the elapsed time is an
abstract reading of the timer. -/
inductive Effect where
  | writeUInt32 (value : Nat)
  | writeString (s : String)
  | writeData (bytes : Data)
  | writeDouble (elapsed : Nat)
  | push (name : String) (input : Data)
  | wait
  | addRecord (name : String) (input output : Data)
  deriving DecidableEq, Repr

/-- Whether an effect is a write to the protocol. -/
def Effect.isWrite : Effect → Bool
  | Effect.writeUInt32 _ => true
  | Effect.writeString _ => true
  | Effect.writeData _ => true
  | Effect.writeDouble _ => true
  | _ => false

/-- `MainServer::process` (lines 51-92).  `handlerName` and `input` are what
was read from the protocol, `served` is the request as the worker thread left
it when `Wait()` returns, `elapsed` the timer reading. -/
def process (m : HandlerMap) (handlerName : String) (input : Data)
    (served : DataPacket → DataPacket) (elapsed : Nat) : List Effect :=
  match m.find handlerName with
  | none =>
    [Effect.writeUInt32 (FAIL_FLAG % 2 ^ 32),
     Effect.writeString (createInvalidHandlerMsg m handlerName)]
  | some _ =>
    let packet := served ⟨handlerName, input, [], none⟩
    [Effect.push handlerName input, Effect.wait] ++
      if packet.ExceptionThrown then
        [Effect.writeUInt32 (FAIL_FLAG % 2 ^ 32),
         Effect.writeString packet.ExceptionMessage]
      else
        [Effect.addRecord handlerName input packet.output,
         Effect.writeUInt32 (packet.output.length % 2 ^ 32),
         Effect.writeData packet.output,
         Effect.writeDouble elapsed]

/-- Modelled from the spec: the handler factory (`IGpuHandler::Factory`, from
the plugin service, not among the sources) resolves a name to a new handler or
reports that it does not know the name. -/
abbrev Factory := String → Option IGpuHandler

/-- The result of `loadHandler`: the error thrown, if any, the registry
afterwards, and what was written to `cout`. -/
structure Loaded where
  result : Except String Unit
  handlers : HandlerMap
  cout : List String

/-- The assignment `m_handlers[name] = handler` of `loadHandler` (line 117). The
entries stay in key order. -/
def HandlerMap.assign (m : HandlerMap) (name : String) (handler : IGpuHandler) : HandlerMap :=
  ⟨assignEntry name handler m.entries, by
    have key : ∀ l : List (String × IGpuHandler), (l.map Prod.fst).Pairwise (· < ·) →
        ((assignEntry name handler l).map Prod.fst).Pairwise (· < ·) ∧
          ∀ k, k ∈ (assignEntry name handler l).map Prod.fst →
            k = name ∨ k ∈ l.map Prod.fst := by
      intro l
      induction l with
      | nil =>
        intro _
        refine ⟨by simp [assignEntry], ?_⟩
        intro k hk
        simp [assignEntry] at hk
        exact Or.inl hk
      | cons e rest ih =>
        obtain ⟨k0, v0⟩ := e
        intro hs
        simp only [List.map_cons, List.pairwise_cons] at hs
        unfold assignEntry
        split_ifs with h1 h2
        · subst h1
          simp only [List.map_cons, List.pairwise_cons, List.mem_cons]
          exact ⟨hs, fun k hk => hk.imp_right Or.inr⟩
        · simp only [List.map_cons, List.pairwise_cons, List.mem_cons]
          refine ⟨⟨?_, hs⟩, fun k hk => hk⟩
          intro a ha
          rcases ha with ha | ha
          · exact ha ▸ h2
          · exact lt_trans h2 (hs.1 a ha)
        · simp only [List.map_cons, List.pairwise_cons, List.mem_cons]
          refine ⟨⟨?_, (ih hs.2).1⟩, ?_⟩
          · intro a ha
            rcases (ih hs.2).2 a ha with h3 | h3
            · subst h3
              exact lt_of_le_of_ne (not_lt.mp h2) (Ne.symm h1)
            · exact hs.1 a h3
          · intro k hk
            rcases hk with hk | hk
            · exact Or.inr (Or.inl hk)
            · exact ((ih hs.2).2 k hk).imp_right Or.inr
    exact (key m.entries m.sorted).1⟩

/-- `MainServer::loadHandler(handlerName)` (lines 102-120). -/
def loadHandler (factory : Factory) (m : HandlerMap) (handlerName : String) : Loaded :=
  match factory handlerName with
  | none =>
    ⟨Except.error ("" ++ "could not load handler '" ++ handlerName ++ "'"), m, []⟩
  | some handler =>
    ⟨Except.ok (), m.assign handlerName handler,
     ["loaded handler '" ++ handlerName ++ "'\n"]⟩

/-- A registry with no handler loaded, as after the constructor. -/
def HandlerMap.empty : HandlerMap := ⟨[], List.Pairwise.nil⟩

/-- A sequence of `loadHandler` calls, each with the factory of its time; a call
that fails leaves the registry as it is. -/
def loadAll (m : HandlerMap) : List (Factory × String) → HandlerMap
  | [] => m
  | (factory, name) :: rest => loadAll (loadHandler factory m name).handlers rest

/-- The name of a popped batch.  A batch is made of requests that were pushed,
and line 72 of `process` is the only push: the name was pushed by `process`
under some registry `m0`, and the present registry `m` came from `m0` by
`loadHandler` calls, the only code that changes `m_handlers`. -/
def Admitted (m : HandlerMap) (name : String) : Prop :=
  ∃ (m0 : HandlerMap) (loads : List (Factory × String)) (input : Data)
    (served : DataPacket → DataPacket) (elapsed : Nat),
    Effect.push name input ∈ process m0 name input served elapsed ∧ m = loadAll m0 loads

end MainServer

namespace SocketServer

theorem received_nil : received [] = 0 := rfl

theorem received_cons (c : Call) (cs : List Call) :
    received (c :: cs) = c.result.toNat + received cs := by
  simp [received]

theorem readLoop_spec (read : Channel) (size : Nat) (hsize : size < 2 ^ 64)
    (hread : ∀ k n, read k n ≤ n) :
    ∀ fuel total k, total ≤ size → size - total ≤ fuel →
      ∃ out calls, readLoop read size fuel total k = some (out, calls) ∧
        (∀ pre c post, calls = pre ++ c :: post →
          total + received pre < size ∧ c.requested = size - (total + received pre) ∧
            c.result = read (k + pre.length) c.requested ∧ (post ≠ [] → 0 < c.result)) ∧
        (out = Outcome.returned → total + received calls = size ∧ ∀ c ∈ calls, 0 < c.result) ∧
        (∀ w, out = Outcome.ioException w →
          w = "Received 0 bytes." ∧ ∃ pre c, calls = pre ++ [c] ∧ c.result = 0) ∧
        (∀ w, out = Outcome.systemException w →
          w = "Read error." ∧ ∃ pre c, calls = pre ++ [c] ∧ c.result < 0) := by
  intro fuel
  induction fuel with
  | zero =>
    intro total k hle hfuel
    have hnot : ¬ total < size := by omega
    refine ⟨Outcome.returned, [], by simp [readLoop, hnot], ?_, ?_, ?_, ?_⟩
    · intro pre c post h
      simp at h
    · intro _
      exact ⟨by simp [received]; omega, by simp⟩
    · intro w h; cases h
    · intro w h; cases h
  | succ fuel ih =>
    intro total k hle hfuel
    by_cases hlt : total < size
    · by_cases h0 : read k (size - total) = 0
      · refine ⟨Outcome.ioException "Received 0 bytes.", [⟨size - total, read k (size - total)⟩],
          by simp [readLoop, hlt, h0], ?_, ?_, ?_, ?_⟩
        · intro pre c post h
          cases pre with
          | nil =>
            simp only [List.nil_append, List.cons.injEq] at h
            obtain ⟨h1, h2⟩ := h
            subst h1
            subst h2
            simp [received, hlt]
          | cons a pre => simp at h
        · intro h; cases h
        · intro w h
          cases h
          exact ⟨rfl, [], _, rfl, h0⟩
        · intro w h; cases h
      · by_cases hneg : read k (size - total) < 0
        · refine ⟨Outcome.systemException "Read error.",
            [⟨size - total, read k (size - total)⟩],
            by simp [readLoop, hlt, h0, hneg], ?_, ?_, ?_, ?_⟩
          · intro pre c post h
            cases pre with
            | nil =>
              simp only [List.nil_append, List.cons.injEq] at h
              obtain ⟨h1, h2⟩ := h
              subst h1
              subst h2
              simp [received, hlt]
            | cons a pre => simp at h
          · intro h; cases h
          · intro w h; cases h
          · intro w h
            cases h
            exact ⟨rfl, [], _, rfl, hneg⟩
        · have hpos : 0 < read k (size - total) := by omega
          have hbound := hread k (size - total)
          have hnat : (read k (size - total)).toNat ≤ size - total := by omega
          have hnat0 : 0 < (read k (size - total)).toNat := by omega
          have hmod : (total + (read k (size - total)).toNat) % 2 ^ 64
              = total + (read k (size - total)).toNat := by
            apply Nat.mod_eq_of_lt
            omega
          obtain ⟨out, calls, hrun, hc, hret, hio, hsys⟩ :=
            ih (total + (read k (size - total)).toNat) (k + 1) (by omega) (by omega)
          refine ⟨out, ⟨size - total, read k (size - total)⟩ :: calls,
            by simp only [readLoop, if_pos hlt, if_neg h0, if_neg hneg, hmod, hrun, Option.map_some'], ?_, ?_, ?_, ?_⟩
          · intro pre c post h
            cases pre with
            | nil =>
              simp only [List.nil_append, List.cons.injEq] at h
              obtain ⟨h1, h2⟩ := h
              subst h1
              subst h2
              simp [received, hlt, hpos]
            | cons a pre =>
              simp only [List.cons_append, List.cons.injEq] at h
              obtain ⟨h1, h2⟩ := h
              subst h1
              obtain ⟨q1, q2, q3, q4⟩ := hc pre c post h2
              rw [received_cons]
              refine ⟨by simpa [Nat.add_assoc] using q1, by simpa [Nat.add_assoc] using q2, ?_, q4⟩
              rw [q3]
              simp [Nat.add_assoc, Nat.add_comm 1]
          · intro h
            obtain ⟨r1, r2⟩ := hret h
            rw [received_cons]
            refine ⟨by simpa [Nat.add_assoc] using r1, ?_⟩
            intro c hcm
            rcases List.mem_cons.mp hcm with hcm | hcm
            · subst hcm; exact hpos
            · exact r2 c hcm
          · intro w h
            obtain ⟨r1, pre, c, r2, r3⟩ := hio w h
            exact ⟨r1, ⟨size - total, read k (size - total)⟩ :: pre, c, by simp [r2], r3⟩
          · intro w h
            obtain ⟨r1, pre, c, r2, r3⟩ := hsys w h
            exact ⟨r1, ⟨size - total, read k (size - total)⟩ :: pre, c, by simp [r2], r3⟩
    · refine ⟨Outcome.returned, [], by simp [readLoop, hlt], ?_, ?_, ?_, ?_⟩
      · intro pre c post h
        simp at h
      · intro _
        exact ⟨by simp [received]; omega, by simp⟩
      · intro w h; cases h
      · intro w h; cases h

/-- A `write` that always answers 0 keeps `writeLoop` going round: whatever the
bound on the iterations, the loop is still running when the bound is reached. -/
theorem writeLoop_zero_running (fuel k : Nat) :
    writeLoop (fun _ _ => 0) 1 fuel 0 k = none := by
  induction fuel generalizing k with
  | zero => simp [writeLoop]
  | succ fuel ih => simp [writeLoop, ih]

/-- C5. `readBytes` for `size` bytes, on a channel whose `read` never returns
more than it is asked for, always ends.  Every call asks for exactly the bytes
still missing (`size` minus what was received so far, a positive number), and
every call but the last returns a positive count.  It returns only after
exactly `size` bytes were received, all calls having returned a positive
count; otherwise it throws `IOException` ("Received 0 bytes.") at the first
call that returns 0, or `SystemException` ("Read error.") at the first call
that returns a negative value.  For `size = 0` it returns without a call. -/
theorem readBytes_exact_or_fails (read : Channel) (size : Nat) (hsize : size < 2 ^ 64)
    (hread : ∀ k n, read k n ≤ n) :
    ∃ out calls, readBytes read size = some (out, calls) ∧
      (∀ pre c post, calls = pre ++ c :: post →
        received pre < size ∧ c.requested = size - received pre ∧
          c.result = read pre.length c.requested ∧ (post ≠ [] → 0 < c.result)) ∧
      (out = Outcome.returned → received calls = size ∧ ∀ c ∈ calls, 0 < c.result) ∧
      (∀ w, out = Outcome.ioException w →
        w = "Received 0 bytes." ∧ ∃ pre c, calls = pre ++ [c] ∧ c.result = 0) ∧
      (∀ w, out = Outcome.systemException w →
        w = "Read error." ∧ ∃ pre c, calls = pre ++ [c] ∧ c.result < 0) ∧
      (∀ c ∈ calls, c.result = 0 → out = Outcome.ioException "Received 0 bytes.") ∧
      (∀ c ∈ calls, c.result < 0 → out = Outcome.systemException "Read error.") ∧
      (size = 0 → out = Outcome.returned ∧ calls = []) := by
  obtain ⟨out, calls, hrun, hc, hret, hio, hsys⟩ :=
    readLoop_spec read size hsize hread size 0 0 (Nat.zero_le _) (by omega)
  have hlast : ∀ c ∈ calls, c.result ≤ 0 → ∃ pre, calls = pre ++ [c] := by
    intro c hmem hle
    obtain ⟨pre, post, hsplit⟩ := List.append_of_mem hmem
    refine ⟨pre, ?_⟩
    cases post with
    | nil => exact hsplit
    | cons d post =>
      have := (hc pre c (d :: post) hsplit).2.2.2 (by simp)
      omega
  have hend : ∀ (p q : List Call) (c d : Call), calls = p ++ [c] → calls = q ++ [d] → c = d := by
    intro p q c d h1 h2
    have h3 := h1.symm.trans h2
    exact (List.append_inj' h3 rfl).2 |> List.singleton_inj.mp
  refine ⟨out, calls, hrun, ?_, ?_, hio, hsys, ?_, ?_, ?_⟩
  · intro pre c post h
    simpa using hc pre c post h
  · intro h
    simpa using hret h
  · intro c hmem h0
    obtain ⟨pre, hpre⟩ := hlast c hmem (by omega)
    cases out with
    | returned =>
      have := (hret rfl).2 c hmem
      omega
    | ioException w => rw [(hio w rfl).1]
    | systemException w =>
      obtain ⟨_, q, d, hq, hd⟩ := hsys w rfl
      have := hend pre q c d hpre hq
      subst this
      omega
  · intro c hmem hneg
    obtain ⟨pre, hpre⟩ := hlast c hmem (by omega)
    cases out with
    | returned =>
      have := (hret rfl).2 c hmem
      omega
    | ioException w =>
      obtain ⟨_, q, d, hq, hd⟩ := hio w rfl
      have := hend pre q c d hpre hq
      subst this
      omega
    | systemException w => rw [(hsys w rfl).1]
  · intro h0
    subst h0
    simp [readBytes, readLoop] at hrun
    exact ⟨hrun.1.symm, hrun.2⟩

/-- Witness for C5: a channel that hands out at most two bytes a call, asked
for five bytes, is within the hypotheses, and the transfer returns after three
calls that delivered 2, 2 and 1 bytes. -/
theorem readBytes_exact_or_fails_witness :
    ((5 : Nat) < 2 ^ 64 ∧ ∀ k n : Nat, (fun (_ n : Nat) => min 2 (n : Int)) k n ≤ n) ∧
      readBytes (fun _ n => min 2 (n : Int)) 5
        = some (Outcome.returned, [⟨5, 2⟩, ⟨3, 2⟩, ⟨1, 1⟩]) ∧
      ∃ out calls, readBytes (fun _ n => min 2 (n : Int)) 5 = some (out, calls) ∧
        (out = Outcome.returned → received calls = 5) := by
  refine ⟨⟨by norm_num, fun _ n => min_le_right _ _⟩, by decide, ?_⟩
  obtain ⟨out, calls, h1, _, h3, _⟩ :=
    readBytes_exact_or_fails (fun _ n => min 2 (n : Int)) 5 (by norm_num)
      (fun _ n => min_le_right _ _)
  exact ⟨out, calls, h1, fun h => (h3 h).1⟩

end SocketServer

namespace MainServer

theorem findEntry_eq_none_iff (name : String) (l : List (String × IGpuHandler)) :
    findEntry name l = none ↔ name ∉ l.map Prod.fst := by
  induction l with
  | nil => simp [findEntry]
  | cons e rest ih =>
    obtain ⟨k, v⟩ := e
    by_cases hk : k = name
    · subst hk
      simp only [findEntry, if_true, List.map_cons, List.mem_cons, true_or, not_true_eq_false]
      exact ⟨fun h => (by cases h), fun h => h.elim⟩
    · have hk2 : ¬ name = k := fun h => hk h.symm
      simp only [findEntry, if_neg hk, ih, List.map_cons, List.mem_cons, not_or]
      exact ⟨fun h => ⟨hk2, h⟩, fun h => h.2⟩

theorem find_isSome_iff (m : HandlerMap) (name : String) :
    (m.find name).isSome ↔ name ∈ m.names := by
  have h := findEntry_eq_none_iff name m.entries
  unfold HandlerMap.find HandlerMap.names
  cases hf : findEntry name m.entries with
  | none =>
    simp only [Option.isSome_none, Bool.false_eq_true, false_iff]
    exact h.mp hf
  | some v =>
    simp only [Option.isSome_some, true_iff]
    by_contra hn
    rw [h.mpr hn] at hf
    cases hf

theorem names_nodup (m : HandlerMap) : m.names.Nodup := by
  have h := m.sorted
  unfold HandlerMap.names
  exact h.imp (fun hlt => ne_of_lt hlt)

theorem findEntry_assignEntry_same (name : String) (h : IGpuHandler)
    (l : List (String × IGpuHandler)) :
    findEntry name (assignEntry name h l) = some h := by
  induction l with
  | nil => simp [assignEntry, findEntry]
  | cons e rest ih =>
    obtain ⟨k, v⟩ := e
    unfold assignEntry
    split_ifs with h1 h2
    · simp [findEntry]
    · simp [findEntry]
    · have hk : ¬ k = name := fun hh => h1 hh.symm
      simp only [findEntry, if_neg hk, ih]

theorem findEntry_assignEntry_other (name other : String) (h : IGpuHandler)
    (hne : other ≠ name) (l : List (String × IGpuHandler)) :
    findEntry other (assignEntry name h l) = findEntry other l := by
  have hne2 : ¬ name = other := fun hh => hne hh.symm
  induction l with
  | nil => simp [assignEntry, findEntry, hne2]
  | cons e rest ih =>
    obtain ⟨k, v⟩ := e
    unfold assignEntry
    split_ifs with h1 h2
    · subst h1
      simp [findEntry, hne2]
    · simp [findEntry, hne2]
    · by_cases hk : k = other
      · simp [findEntry, hk]
      · simp only [findEntry, if_neg hk, ih]

theorem intercalate_go_append (a b s : String) (l : List String) :
    String.intercalate.go (a ++ b) s l = a ++ String.intercalate.go b s l := by
  induction l generalizing b with
  | nil => simp [String.intercalate.go]
  | cons k rest ih =>
    simp only [String.intercalate.go]
    rw [String.append_assoc, String.append_assoc, ← String.append_assoc b, ih]

theorem appendNames_false (msg : String) (l : List String) :
    appendNames false msg l = String.intercalate.go msg ", " l := by
  induction l generalizing msg with
  | nil => simp [appendNames, String.intercalate.go]
  | cons k rest ih =>
    simp only [appendNames, String.intercalate.go, ih]
    simp

theorem appendNames_true (msg : String) (l : List String) :
    appendNames true msg l = msg ++ ", ".intercalate l := by
  cases l with
  | nil => simp [appendNames, String.intercalate]
  | cons k rest =>
    simp only [appendNames, String.intercalate, appendNames_false, if_true]
    exact intercalate_go_append msg k ", " rest

theorem createInvalidHandlerMsg_eq (m : HandlerMap) (handler : String) :
    createInvalidHandlerMsg m handler
      = "invalid handler name: " ++ handler ++ "; valid handlers: "
          ++ ", ".intercalate m.names ++ "." := by
  unfold createInvalidHandlerMsg
  simp only [appendNames_true]
  have h1 : "; " ++ "valid handlers: " = "; valid handlers: " := by decide
  rw [← h1]
  simp only [String.append_assoc, String.empty_append]

/-- C4. When the handler name is not a key of the registry, `process` writes
the sentinel `0xFFFFFFFF` and then one string, and does nothing else: nothing
is pushed on the queue, there is no wait and no data-log record.  The string
is "invalid handler name: " + h + "; valid handlers: " + the registered names
joined by ", " + "."; the names in it are the keys of the registry, each
once. -/
theorem process_unknown_handler (m : HandlerMap) (h : String) (input : Data)
    (served : DataPacket → DataPacket) (elapsed : Nat) (hkey : h ∉ m.names) :
    process m h input served elapsed
        = [Effect.writeUInt32 0xFFFFFFFF,
           Effect.writeString ("invalid handler name: " ++ h ++ "; valid handlers: "
             ++ ", ".intercalate m.names ++ ".")] ∧
      m.names.Nodup ∧ ∀ k, k ∈ m.names ↔ (m.find k).isSome := by
  have hfind : m.find h = none := (findEntry_eq_none_iff h m.entries).mpr hkey
  refine ⟨?_, names_nodup m, fun k => (find_isSome_iff m k).symm⟩
  simp only [process, hfind, createInvalidHandlerMsg_eq]
  simp [FAIL_FLAG]

/-- Witness for C4: with "fft" and "sum" loaded, a request for "sort" is
answered by the sentinel and the message that lists both names. -/
theorem process_unknown_handler_witness :
    "sort" ∉ ((HandlerMap.empty.assign "sum" fun _ => ⟨[], HandlerEnd.returns⟩).assign "fft"
        fun _ => ⟨[], HandlerEnd.returns⟩).names ∧
      process ((HandlerMap.empty.assign "sum" fun _ => ⟨[], HandlerEnd.returns⟩).assign "fft"
          fun _ => ⟨[], HandlerEnd.returns⟩) "sort" [1, 2] id 0
        = [Effect.writeUInt32 0xFFFFFFFF,
           Effect.writeString "invalid handler name: sort; valid handlers: fft, sum."] := by
  have hlt : "fft" < "sum" := by
    rw [String.lt_iff_toList_lt]
    decide
  have hnames : ((HandlerMap.empty.assign "sum" fun _ => ⟨[], HandlerEnd.returns⟩).assign
      "fft" fun _ => ⟨[], HandlerEnd.returns⟩).names = ["fft", "sum"] := by
    simp [HandlerMap.names, HandlerMap.assign, HandlerMap.empty, assignEntry, hlt]
  have hkey : "sort" ∉ ((HandlerMap.empty.assign "sum" fun _ => ⟨[], HandlerEnd.returns⟩).assign
      "fft" fun _ => ⟨[], HandlerEnd.returns⟩).names := by
    rw [hnames]
    decide
  refine ⟨hkey, ?_⟩
  have h := (process_unknown_handler _ "sort" [1, 2] id 0 hkey).1
  rw [h, hnames]
  decide

theorem loadHandler_find_isSome (factory : Factory) (m : HandlerMap) (name k : String)
    (hk : (m.find k).isSome) : ((loadHandler factory m name).handlers.find k).isSome := by
  cases hf : factory name with
  | none => simpa [loadHandler, hf] using hk
  | some h =>
    simp only [loadHandler, hf, HandlerMap.find, HandlerMap.assign]
    by_cases hkn : k = name
    · subst hkn
      simp [findEntry_assignEntry_same]
    · rw [findEntry_assignEntry_other name k h hkn]
      exact hk

/-- C10. `loadHandler`: when the factory does not know the name, the call
fails with "could not load handler '<name>'" and the registry is as before.
When the factory returns a handler, the call succeeds, afterwards the registry
maps the name to that handler and every other name to what it was mapped to
before.  In both cases every name that was registered before is registered
afterwards and `getHandlerByName` resolves it. -/
theorem loadHandler_registry (factory : Factory) (m : HandlerMap) (name : String) :
    (factory name = none →
        (loadHandler factory m name).result
            = Except.error ("could not load handler '" ++ name ++ "'") ∧
          (loadHandler factory m name).handlers = m) ∧
      (∀ h, factory name = some h →
        (loadHandler factory m name).result = Except.ok () ∧
          (loadHandler factory m name).handlers.find name = some h ∧
          ∀ other, other ≠ name →
            (loadHandler factory m name).handlers.find other = m.find other) ∧
      (∀ k, (m.find k).isSome →
        ((loadHandler factory m name).handlers.find k).isSome ∧
          ∃ h, getHandlerByName (loadHandler factory m name).handlers k = Except.ok h) := by
  have key : ∀ k, (m.find k).isSome →
      ((loadHandler factory m name).handlers.find k).isSome :=
    fun k hk => loadHandler_find_isSome factory m name k hk
  refine ⟨?_, ?_, ?_⟩
  · intro hf
    simp [loadHandler, hf]
  · intro h hf
    refine ⟨by simp [loadHandler, hf], ?_, ?_⟩
    · simp [loadHandler, hf, HandlerMap.find, HandlerMap.assign, findEntry_assignEntry_same]
    · intro other hne
      simp [loadHandler, hf, HandlerMap.find, HandlerMap.assign,
        findEntry_assignEntry_other name other h hne]
  · intro k hk
    refine ⟨key k hk, ?_⟩
    have h2 := key k hk
    unfold getHandlerByName
    cases hfind : (loadHandler factory m name).handlers.find k with
    | none => simp [hfind] at h2
    | some h => exact ⟨h, rfl⟩

theorem allocVector_length (index size : Nat) (slots : List Data) :
    (allocVector index size slots).2.length = slots.length := by
  unfold allocVector
  split_ifs with h
  · rfl
  · cases slots[index]? <;> simp

theorem store_length (p : Option Ptr) (bytes : Data) (slots : List Data) :
    (store p bytes slots).length = slots.length := by
  unfold store
  split
  · rfl
  · split
    · rfl
    · simp

theorem runAllocs_length (allocs : List AllocRequest) (slots : List Data) :
    (runAllocs allocs slots).2.length = slots.length := by
  induction allocs generalizing slots with
  | nil => rfl
  | cons a rest ih =>
    unfold runAllocs
    have h1 := allocVector_length a.index a.size slots
    rcases hrun : allocVector a.index a.size slots with ⟨r, slots1⟩
    rw [hrun] at h1
    cases r with
    | error e => exact h1
    | ok p =>
      simp only
      rw [ih, store_length]
      exact h1

theorem invoke_length (handler : IGpuHandler) (input output : List Data) :
    (invoke handler input output).2.length = output.length := by
  unfold invoke
  have h1 := runAllocs_length (handler input).allocs output
  rcases hrun : runAllocs (handler input).allocs output with ⟨r, slots⟩
  rw [hrun] at h1
  cases r <;> exact h1

theorem writeBack_getElem? (batch : List DataPacket) (slots : List Data)
    (hlen : slots.length = batch.length) (i : Nat) :
    (writeBack batch slots)[i]? =
      (batch[i]?).bind fun p => (slots[i]?).map fun o => ⟨p.name, p.input, o, p.exceptionMessage⟩ := by
  induction batch generalizing slots i with
  | nil => simp [writeBack]
  | cons p rest ih =>
    cases slots with
    | nil => simp at hlen
    | cons o slots =>
      cases i with
      | zero => simp [writeBack]
      | succ i =>
        have := ih slots (by simpa using hlen) i
        simpa [writeBack] using this

theorem writeBack_length (batch : List DataPacket) (slots : List Data)
    (hlen : slots.length = batch.length) :
    (writeBack batch slots).length = batch.length := by
  simp [writeBack, hlen]

theorem lastState_append (xs ys : List Step) (init : List DataPacket) :
    lastState (xs ++ ys) init = lastState ys (lastState xs init) := by
  induction xs generalizing init with
  | nil => rfl
  | cons s rest ih => exact ih s.2

theorem lastState_const (l : List Step) (s : List DataPacket) (h : ∀ st ∈ l, st.2 = s) :
    lastState l s = s := by
  induction l with
  | nil => rfl
  | cons st rest ih =>
    simp only [lastState]
    rw [h st (List.mem_cons_self _ _)]
    exact ih fun x hx => h x (List.mem_cons_of_mem _ hx)

theorem signalLoop_state (batch : List DataPacket) : ∀ st ∈ signalLoop batch, st.2 = batch := by
  intro st hst
  simp only [signalLoop, List.mem_map] at hst
  obtain ⟨i, _, hi⟩ := hst
  rw [← hi]

theorem signalLoop_events (batch : List DataPacket) :
    (signalLoop batch).map Prod.fst = (List.range batch.length).map Event.signal := by
  simp [signalLoop]

theorem setExceptionLoop_events (what : String) (done todo : List DataPacket) :
    (setExceptionLoop what done todo).map Prod.fst
      = (List.range todo.length).map fun i => Event.setExceptionMessage (done.length + i) what := by
  induction todo generalizing done with
  | nil => simp [setExceptionLoop]
  | cons p todo ih =>
    simp only [setExceptionLoop, List.map_cons, ih, List.length_append, List.length_cons,
      List.length_nil, List.range_succ_eq_map, List.map_map]
    refine congrArg₂ _ rfl ?_
    apply List.map_congr_left
    intro i _
    simp only [Function.comp]
    congr 1
    omega

theorem setExceptionLoop_last (what : String) (done todo : List DataPacket) :
    lastState (setExceptionLoop what done todo) (done ++ todo)
      = done ++ todo.map fun p => p.SetExceptionMessage what := by
  induction todo generalizing done with
  | nil => simp [setExceptionLoop, lastState]
  | cons p todo ih =>
    simp only [setExceptionLoop, lastState, List.map_cons]
    have h := ih (done ++ [p.SetExceptionMessage what])
    simp only [List.append_assoc, List.singleton_append] at h
    exact h

theorem setExceptionLoop_caught (what : String) (batch : List DataPacket) :
    lastState (setExceptionLoop what [] batch) batch
      = batch.map fun p => p.SetExceptionMessage what := by
  have h := setExceptionLoop_last what [] batch
  simpa using h

theorem processBatchSteps_returns (handler : IGpuHandler) (name : String)
    (batch : List DataPacket)
    (hend : (invoke handler (prepareData batch).1 (prepareData batch).2).1
      = HandlerEnd.returns) :
    processBatchSteps handler name batch
      = (Event.invoked name batch.length,
          writeBack batch (invoke handler (prepareData batch).1 (prepareData batch).2).2)
        :: (Event.perfRecord name (accumulate (prepareData batch).1 0)
              (accumulate (invoke handler (prepareData batch).1 (prepareData batch).2).2 0)
              batch.length,
            writeBack batch (invoke handler (prepareData batch).1 (prepareData batch).2).2)
        :: signalLoop
            (writeBack batch (invoke handler (prepareData batch).1 (prepareData batch).2).2) := by
  simp only [processBatchSteps, hend]

theorem processBatchSteps_throws (handler : IGpuHandler) (name : String)
    (batch : List DataPacket) (what : String)
    (hend : (invoke handler (prepareData batch).1 (prepareData batch).2).1
      = HandlerEnd.throws what) :
    processBatchSteps handler name batch
      = (Event.invoked name batch.length,
          writeBack batch (invoke handler (prepareData batch).1 (prepareData batch).2).2)
        :: (setExceptionLoop what []
              (writeBack batch (invoke handler (prepareData batch).1 (prepareData batch).2).2)
          ++ (Event.perfRecord name (accumulate (prepareData batch).1 0)
                (accumulate (invoke handler (prepareData batch).1 (prepareData batch).2).2 0)
                batch.length,
              (writeBack batch
                (invoke handler (prepareData batch).1 (prepareData batch).2).2).map
                  fun p => p.SetExceptionMessage what)
            :: signalLoop
              ((writeBack batch
                (invoke handler (prepareData batch).1 (prepareData batch).2).2).map
                  fun p => p.SetExceptionMessage what)) := by
  simp only [processBatchSteps, hend, setExceptionLoop_caught]

theorem processBatchSteps_throwsOther (handler : IGpuHandler) (name : String)
    (batch : List DataPacket)
    (hend : (invoke handler (prepareData batch).1 (prepareData batch).2).1
      = HandlerEnd.throwsOther) :
    processBatchSteps handler name batch
      = [(Event.invoked name batch.length,
          writeBack batch (invoke handler (prepareData batch).1 (prepareData batch).2).2)] := by
  simp only [processBatchSteps, hend]

theorem processBatch_fst (handler : IGpuHandler) (name : String) (batch : List DataPacket) :
    (processBatch handler name batch).1
      = match (invoke handler (prepareData batch).1 (prepareData batch).2).1 with
        | HandlerEnd.throws what =>
          (writeBack batch (invoke handler (prepareData batch).1 (prepareData batch).2).2).map
            fun p => p.SetExceptionMessage what
        | _ => writeBack batch (invoke handler (prepareData batch).1 (prepareData batch).2).2 := by
  unfold processBatch
  cases hend : (invoke handler (prepareData batch).1 (prepareData batch).2).1 with
  | returns =>
    simp only [processBatchSteps_returns handler name batch hend, lastState]
    exact lastState_const _ _ (signalLoop_state _)
  | throws what =>
    simp only [processBatchSteps_throws handler name batch what hend, lastState]
    rw [lastState_append]
    simp only [lastState]
    exact lastState_const _ _ (signalLoop_state _)
  | throwsOther =>
    simp only [processBatchSteps_throwsOther handler name batch hend, lastState]

theorem processBatch_length (handler : IGpuHandler) (name : String) (batch : List DataPacket) :
    (processBatch handler name batch).1.length = batch.length := by
  have hlen : (invoke handler (prepareData batch).1 (prepareData batch).2).2.length
      = batch.length := by
    rw [invoke_length]
    simp [prepareData]
  rw [processBatch_fst]
  cases hend : (invoke handler (prepareData batch).1 (prepareData batch).2).1 with
  | returns => exact writeBack_length _ _ hlen
  | throws what =>
    simp only [List.length_map]
    exact writeBack_length _ _ hlen
  | throwsOther => exact writeBack_length _ _ hlen

theorem processBatch_events (handler : IGpuHandler) (name : String) (batch : List DataPacket) :
    (processBatch handler name batch).2
      = match (invoke handler (prepareData batch).1 (prepareData batch).2).1 with
        | HandlerEnd.throwsOther => [Event.invoked name batch.length]
        | HandlerEnd.returns =>
          Event.invoked name batch.length
            :: Event.perfRecord name (accumulate (prepareData batch).1 0)
                (accumulate (invoke handler (prepareData batch).1 (prepareData batch).2).2 0)
                batch.length
            :: (List.range batch.length).map Event.signal
        | HandlerEnd.throws what =>
          Event.invoked name batch.length
            :: (((List.range batch.length).map fun i => Event.setExceptionMessage i what)
              ++ Event.perfRecord name (accumulate (prepareData batch).1 0)
                  (accumulate (invoke handler (prepareData batch).1 (prepareData batch).2).2 0)
                  batch.length
                :: (List.range batch.length).map Event.signal) := by
  have hlen : (invoke handler (prepareData batch).1 (prepareData batch).2).2.length
      = batch.length := by
    rw [invoke_length]
    simp [prepareData]
  have hwb := writeBack_length batch _ hlen
  unfold processBatch
  cases hend : (invoke handler (prepareData batch).1 (prepareData batch).2).1 with
  | returns =>
    simp only [processBatchSteps_returns handler name batch hend, List.map_cons,
      signalLoop_events, hwb]
  | throws what =>
    simp only [processBatchSteps_throws handler name batch what hend, List.map_cons,
      List.map_append, signalLoop_events, setExceptionLoop_events, List.length_map, hwb,
      List.length_nil, Nat.zero_add]
  | throwsOther =>
    simp only [processBatchSteps_throwsOther handler name batch hend, List.map_cons,
      List.map_nil]

theorem accumulate_mod (buffers : List Data) (init : Nat) :
    accumulate buffers (init % 2 ^ 32) = (init + (buffers.map List.length).sum) % 2 ^ 32 := by
  induction buffers generalizing init with
  | nil => simp [accumulate]
  | cons d rest ih =>
    have hstep : addSize (init % 2 ^ 32) d % 2 ^ 32 = (init + d.length) % 2 ^ 32 := by
      unfold addSize
      rw [Nat.mod_mod_of_dvd _ (by norm_num : 2 ^ 32 ∣ 2 ^ 64), Nat.mod_add_mod]
    have hfold : accumulate (d :: rest) (init % 2 ^ 32)
        = accumulate rest (addSize (init % 2 ^ 32) d % 2 ^ 32) := rfl
    rw [hfold, hstep, ih, List.map_cons, List.sum_cons, Nat.add_assoc]

theorem accumulate_zero (buffers : List Data) :
    accumulate buffers 0 = (buffers.map List.length).sum % 2 ^ 32 := by
  have h := accumulate_mod buffers 0
  simpa using h

/-- C7. The output slots `processQueue` builds are the output buffers of the
requests, slot `i` belonging to request `i`, whose input is input `i`.  On
them `allocVector(index, size, slots)` with `size = 0` returns the null pointer
and changes no slot, whatever `index` is.  With `size > 0` and `index` in
range it resizes slot `index` to exactly `size` bytes, returns a pointer to
the first byte of that slot and leaves the other slots as they were.  With
`size > 0` and `index` out of range it fails and changes no slot. -/
theorem allocVector_contract (batch : List DataPacket) (index size : Nat) :
    ((prepareData batch).2.length = batch.length ∧
        ∀ i : Nat, (prepareData batch).2[i]? = (batch[i]?).map (fun p => p.output) ∧
          (prepareData batch).1[i]? = (batch[i]?).map (fun p => p.input)) ∧
      (size = 0 →
        allocVector index size (prepareData batch).2 = (Except.ok none, (prepareData batch).2)) ∧
      (0 < size → index < batch.length →
        ∃ old, (prepareData batch).2[index]? = some old ∧
          allocVector index size (prepareData batch).2
            = (Except.ok (some ⟨index, 0⟩), (prepareData batch).2.set index (resize old size)) ∧
          (allocVector index size (prepareData batch).2).2.length = batch.length ∧
          (allocVector index size (prepareData batch).2).2[index]? = some (resize old size) ∧
          (resize old size).length = size ∧
          ∀ j : Nat, j ≠ index →
            (allocVector index size (prepareData batch).2).2[j]? = (prepareData batch).2[j]?) ∧
      (0 < size → batch.length ≤ index →
        ∃ what, allocVector index size (prepareData batch).2
          = (Except.error what, (prepareData batch).2)) := by
  have hlen : (prepareData batch).2.length = batch.length := by simp [prepareData]
  refine ⟨⟨hlen, fun i => by simp [prepareData]⟩, ?_, ?_, ?_⟩
  · intro h
    simp [allocVector, h]
  · intro hpos hidx0
    have hne : ¬ size = 0 := by omega
    have hidx : index < (prepareData batch).2.length := by omega
    have hold : (prepareData batch).2[index]? = some ((prepareData batch).2.get ⟨index, hidx⟩) :=
      List.getElem?_eq_getElem hidx
    refine ⟨(prepareData batch).2.get ⟨index, hidx⟩, hold, ?_⟩
    generalize (prepareData batch).2.get ⟨index, hidx⟩ = old at hold ⊢
    have hval : allocVector index size (prepareData batch).2
        = (Except.ok (some ⟨index, 0⟩), (prepareData batch).2.set index (resize old size)) := by
      simp only [allocVector, if_neg hne, hold]
    refine ⟨hval, ?_, ?_, ?_, ?_⟩
    · rw [allocVector_length, hlen]
    · rw [hval]
      simp [List.getElem?_set, hidx]
    · unfold resize
      simp only [List.length_append, List.length_take, List.length_replicate]
      omega
    · intro j hj
      rw [hval]
      simp [List.getElem?_set, Ne.symm hj]
  · intro hpos hrange
    have hne : ¬ size = 0 := by omega
    have hnone : (prepareData batch).2[index]? = none :=
      List.getElem?_eq_none (by omega)
    exact ⟨outOfRange index (prepareData batch).2.length,
      by simp only [allocVector, if_neg hne, hnone]⟩

theorem count_signal_range (n i : Nat) :
    ((List.range n).map Event.signal).count (Event.signal i) = if i < n then 1 else 0 := by
  have hinj : Function.Injective Event.signal := fun a b h => by cases h; rfl
  rw [List.count_map_of_injective _ _ hinj, List.count_eq_of_nodup (List.nodup_range n)]
  simp

/-- C1. When the handler invocation for a batch throws an exception with
message `what`, the batch that leaves the iteration has as many requests as
the one popped, and every request in it, at every index, is the request popped
at that index with its failure message set to exactly `what`.  `process`,
resumed on such a request, writes the sentinel `0xFFFFFFFF` followed by `what`
and nothing else: no output length, no output bytes, no data-log record. -/
theorem processQueue_failure_reaches_every_request (handler : IGpuHandler) (name : String)
    (batch : List DataPacket) (what : String)
    (hthrow : (invoke handler (prepareData batch).1 (prepareData batch).2).1
      = HandlerEnd.throws what) :
    (processBatch handler name batch).1.length = batch.length ∧
      ∀ (i : Nat) (p : DataPacket), (processBatch handler name batch).1[i]? = some p →
        p.exceptionMessage = some what ∧
          (∃ q, batch[i]? = some q ∧ p.name = q.name ∧ p.input = q.input) ∧
          ∀ (m : HandlerMap) (served : DataPacket → DataPacket) (elapsed : Nat),
            (m.find p.name).isSome → served ⟨p.name, p.input, [], none⟩ = p →
              process m p.name p.input served elapsed
                = [Effect.push p.name p.input, Effect.wait,
                   Effect.writeUInt32 0xFFFFFFFF, Effect.writeString what] := by
  refine ⟨processBatch_length handler name batch, ?_⟩
  intro i p hp
  have hlen : (invoke handler (prepareData batch).1 (prepareData batch).2).2.length
      = batch.length := by
    rw [invoke_length]
    simp [prepareData]
  have hfst : (processBatch handler name batch).1
      = (writeBack batch (invoke handler (prepareData batch).1 (prepareData batch).2).2).map
          fun p => p.SetExceptionMessage what := by
    rw [processBatch_fst]
    simp only [hthrow]
  rw [hfst, List.getElem?_map, writeBack_getElem? _ _ hlen] at hp
  cases hq : batch[i]? with
  | none => simp [hq] at hp
  | some q =>
    cases ho : (invoke handler (prepareData batch).1 (prepareData batch).2).2[i]? with
    | none => simp [hq, ho] at hp
    | some o =>
      simp only [hq, ho, Option.some_bind, Option.map_some', Option.some.injEq] at hp
      subst hp
      refine ⟨rfl, ⟨q, rfl, rfl, rfl⟩, ?_⟩
      intro m served elapsed hfind hserved
      cases hf : m.find q.name with
      | none => simp [DataPacket.SetExceptionMessage, hf] at hfind
      | some h =>
        simp only [DataPacket.SetExceptionMessage] at hserved ⊢
        simp [process, hf, hserved, DataPacket.ExceptionThrown, DataPacket.ExceptionMessage,
          FAIL_FLAG]

/-- Witness for C1: a handler that throws "boom" on a batch of two requests;
both requests come back with the failure message "boom". -/
theorem processQueue_failure_reaches_every_request_witness :
    (invoke (fun _ => ⟨[], HandlerEnd.throws "boom"⟩)
        (prepareData [⟨"sum", [1], [], none⟩, ⟨"sum", [2, 3], [], none⟩]).1
        (prepareData [⟨"sum", [1], [], none⟩, ⟨"sum", [2, 3], [], none⟩]).2).1
        = HandlerEnd.throws "boom" ∧
      (processBatch (fun _ => ⟨[], HandlerEnd.throws "boom"⟩) "sum"
        [⟨"sum", [1], [], none⟩, ⟨"sum", [2, 3], [], none⟩]).1
        = [⟨"sum", [1], [], some "boom"⟩, ⟨"sum", [2, 3], [], some "boom"⟩] ∧
      (processBatch (fun _ => ⟨[], HandlerEnd.throws "boom"⟩) "sum"
        [⟨"sum", [1], [], none⟩, ⟨"sum", [2, 3], [], none⟩]).1.length = 2 := by
  refine ⟨by decide, by decide, ?_⟩
  exact (processQueue_failure_reaches_every_request (fun _ => ⟨[], HandlerEnd.throws "boom"⟩)
    "sum" [⟨"sum", [1], [], none⟩, ⟨"sum", [2, 3], [], none⟩] "boom" (by decide)).1

theorem invoke_snd (handler : IGpuHandler) (input output : List Data) :
    (invoke handler input output).2 = (runAllocs (handler input).allocs output).2 := by
  unfold invoke
  rcases hrun : runAllocs (handler input).allocs output with ⟨r, slots⟩
  cases r <;> rfl

theorem writeBack_served (batch : List DataPacket) (slots : List Data)
    (hlen : slots.length = batch.length) (i : Nat) (q : DataPacket) (hq : batch[i]? = some q) :
    ∃ o, slots[i]? = some o ∧
      (writeBack batch slots)[i]? = some ⟨q.name, q.input, o, q.exceptionMessage⟩ := by
  have hi : i < batch.length := by
    by_contra hcon
    rw [List.getElem?_eq_none (by omega)] at hq
    cases hq
  have ho : slots[i]? = some (slots.get ⟨i, by omega⟩) := List.getElem?_eq_getElem (by omega)
  refine ⟨slots.get ⟨i, by omega⟩, ho, ?_⟩
  rw [writeBack_getElem? batch slots hlen, hq, ho]
  rfl

theorem setExceptionLoop_kind (what : String) (done todo : List DataPacket) :
    ∀ st ∈ setExceptionLoop what done todo, ∃ i, st.1 = Event.setExceptionMessage i what := by
  induction todo generalizing done with
  | nil =>
    intro st hst
    simp [setExceptionLoop] at hst
  | cons p todo ih =>
    intro st hst
    simp only [setExceptionLoop, List.mem_cons] at hst
    rcases hst with hst | hst
    · exact ⟨done.length, by rw [hst]⟩
    · exact ih _ st hst

theorem count_signal_shape (front : List Event) (perf : Event) (n i : Nat)
    (hfront : ∀ e ∈ front, e.isSignal = false) (hperf : perf.isSignal = false) :
    (front ++ perf :: (List.range n).map Event.signal).count (Event.signal i)
      = if i < n then 1 else 0 := by
  have h0 : front.count (Event.signal i) = 0 := by
    apply List.count_eq_zero_of_not_mem
    intro hmem
    have := hfront _ hmem
    simp [Event.isSignal] at this
  have h1 : ¬ perf = Event.signal i := by
    intro h
    rw [h] at hperf
    simp [Event.isSignal] at hperf
  rw [List.count_append, h0, List.count_cons, count_signal_range]
  simp [h1]

theorem processBatchSteps_shape (handler : IGpuHandler) (name : String)
    (batch : List DataPacket)
    (hstd : (invoke handler (prepareData batch).1 (prepareData batch).2).1
      ≠ HandlerEnd.throwsOther) :
    ∃ before perf after,
      processBatchSteps handler name batch = before ++ perf :: after ∧
      (before.map Prod.fst).head? = some (Event.invoked name batch.length) ∧
      (∀ s ∈ before, s.1.isSignal = false ∧ s.1.isPerfRecord = false) ∧
      (∀ what, (invoke handler (prepareData batch).1 (prepareData batch).2).1
          = HandlerEnd.throws what →
        ∀ i, i < batch.length → Event.setExceptionMessage i what ∈ before.map Prod.fst) ∧
      perf.1.isPerfRecord = true ∧
      after.map Prod.fst = (List.range batch.length).map Event.signal ∧
      (∀ s ∈ perf :: after, ∀ (i : Nat) (q : DataPacket), batch[i]? = some q →
        ∃ o, (runAllocs (handler (prepareData batch).1).allocs (prepareData batch).2).2[i]?
            = some o ∧
          s.2[i]? = some ⟨q.name, q.input, o,
            match (invoke handler (prepareData batch).1 (prepareData batch).2).1 with
            | HandlerEnd.throws what => some what
            | _ => q.exceptionMessage⟩) := by
  have hlen : (invoke handler (prepareData batch).1 (prepareData batch).2).2.length
      = batch.length := by
    rw [invoke_length]
    simp [prepareData]
  have hwb := writeBack_length batch _ hlen
  cases hend : (invoke handler (prepareData batch).1 (prepareData batch).2).1 with
  | throwsOther => exact absurd hend hstd
  | returns =>
    refine ⟨[(Event.invoked name batch.length,
          writeBack batch (invoke handler (prepareData batch).1 (prepareData batch).2).2)],
      (Event.perfRecord name (accumulate (prepareData batch).1 0)
          (accumulate (invoke handler (prepareData batch).1 (prepareData batch).2).2 0)
          batch.length,
        writeBack batch (invoke handler (prepareData batch).1 (prepareData batch).2).2),
      signalLoop (writeBack batch (invoke handler (prepareData batch).1 (prepareData batch).2).2),
      processBatchSteps_returns handler name batch hend, rfl, ?_, ?_, rfl, ?_, ?_⟩
    · intro s hs
      rw [List.mem_singleton.mp hs]
      exact ⟨rfl, rfl⟩
    · intro what hw
      cases hw
    · rw [signalLoop_events, hwb]
    · intro s hs i q hq
      have hstate : s.2
          = writeBack batch (invoke handler (prepareData batch).1 (prepareData batch).2).2 := by
        rcases List.mem_cons.mp hs with h | h
        · rw [h]
        · exact signalLoop_state _ s h
      obtain ⟨o, ho, hp⟩ := writeBack_served batch _ hlen i q hq
      refine ⟨o, by rw [← invoke_snd]; exact ho, ?_⟩
      rw [hstate, hp]
  | throws what =>
    refine ⟨(Event.invoked name batch.length,
          writeBack batch (invoke handler (prepareData batch).1 (prepareData batch).2).2)
        :: setExceptionLoop what []
          (writeBack batch (invoke handler (prepareData batch).1 (prepareData batch).2).2),
      (Event.perfRecord name (accumulate (prepareData batch).1 0)
          (accumulate (invoke handler (prepareData batch).1 (prepareData batch).2).2 0)
          batch.length,
        (writeBack batch (invoke handler (prepareData batch).1 (prepareData batch).2).2).map
          fun p => p.SetExceptionMessage what),
      signalLoop
        ((writeBack batch (invoke handler (prepareData batch).1 (prepareData batch).2).2).map
          fun p => p.SetExceptionMessage what),
      by rw [processBatchSteps_throws handler name batch what hend]; rfl, rfl, ?_, ?_, rfl,
      ?_, ?_⟩
    · intro s hs
      rcases List.mem_cons.mp hs with h | h
      · rw [h]
        exact ⟨rfl, rfl⟩
      · obtain ⟨i, hi⟩ := setExceptionLoop_kind what [] _ s h
        rw [hi]
        exact ⟨rfl, rfl⟩
    · intro w hw i hi
      cases hw
      simp only [List.map_cons, setExceptionLoop_events, hwb, List.length_nil, Nat.zero_add,
        List.mem_cons, List.mem_map, List.mem_range]
      exact Or.inr ⟨i, hi, rfl⟩
    · rw [signalLoop_events, List.length_map, hwb]
    · intro s hs i q hq
      have hstate : s.2
          = (writeBack batch (invoke handler (prepareData batch).1 (prepareData batch).2).2).map
              fun p => p.SetExceptionMessage what := by
        rcases List.mem_cons.mp hs with h | h
        · rw [h]
        · exact signalLoop_state _ s h
      obtain ⟨o, ho, hp⟩ := writeBack_served batch _ hlen i q hq
      refine ⟨o, by rw [← invoke_snd]; exact ho, ?_⟩
      rw [hstate, List.getElem?_map, hp]
      rfl

theorem loadAll_find_isSome (m : HandlerMap) (loads : List (Factory × String)) (k : String)
    (hk : (m.find k).isSome) : ((loadAll m loads).find k).isSome := by
  induction loads generalizing m with
  | nil => exact hk
  | cons fl rest ih =>
    obtain ⟨factory, name⟩ := fl
    exact ih _ (loadHandler_find_isSome factory m name k hk)

theorem admitted_find (m : HandlerMap) (name : String) (h : Admitted m name) :
    ∃ handler, m.find name = some handler ∧ getHandlerByName m name = Except.ok handler := by
  obtain ⟨m0, loads, input, served, elapsed, hpush, hm⟩ := h
  have h0 : (m0.find name).isSome := by
    cases hf : m0.find name with
    | none => simp [process, hf] at hpush
    | some v => rfl
  have h1 := loadAll_find_isSome m0 loads name h0
  rw [← hm] at h1
  cases hf : m.find name with
  | none => simp [hf] at h1
  | some handler => exact ⟨handler, rfl, by simp only [getHandlerByName, hf]⟩

theorem processQueue_resolved (m : HandlerMap) (name : String) (batch : List DataPacket)
    (rest : List PopResult) (handler : IGpuHandler)
    (hres : getHandlerByName m name = Except.ok handler)
    (hstd : (invoke handler (prepareData batch).1 (prepareData batch).2).1
      ≠ HandlerEnd.throwsOther) :
    processQueue m (PopResult.batch name batch :: rest)
      = ((processBatch handler name batch).2 ++ (processQueue m rest).1,
         (processQueue m rest).2) := by
  cases hend : (invoke handler (prepareData batch).1 (prepareData batch).2).1 with
  | throwsOther => exact absurd hend hstd
  | returns => simp only [processQueue, hres, hend]
  | throws what => simp only [processQueue, hres, hend]

/-- C2, as the code has it.  For a popped batch (its handler name was pushed
by `process`, so `getHandlerByName` resolves it), when the handler invocation
returns or throws a `std::exception`, the steps of the iteration are: the
invocation first, then (after a throw) the failure message set on every
request, then one performance record, then one `Signal()` for each request of
the batch, in batch order, and after that the next iteration.  Nothing before
the performance record is a signal; the signal of request `i` occurs exactly
once for every `i` below the batch size and never for another `i`.  At the
performance record and at every signal, request `i` is the popped request `i`
with the output the handler left in slot `i` and, after a throw, with the
failure message set. -/
theorem processQueue_signals_each_once (m : HandlerMap) (name : String)
    (batch : List DataPacket) (rest : List PopResult) (hadm : Admitted m name)
    (hstd : ∀ handler, m.find name = some handler →
      (invoke handler (prepareData batch).1 (prepareData batch).2).1
        ≠ HandlerEnd.throwsOther) :
    ∃ handler before perf after,
      getHandlerByName m name = Except.ok handler ∧
      processBatchSteps handler name batch = before ++ perf :: after ∧
      (processQueue m (PopResult.batch name batch :: rest)).1
        = (before ++ perf :: after).map Prod.fst ++ (processQueue m rest).1 ∧
      (before.map Prod.fst).head? = some (Event.invoked name batch.length) ∧
      (∀ s ∈ before, s.1.isSignal = false ∧ s.1.isPerfRecord = false) ∧
      (∀ what, (invoke handler (prepareData batch).1 (prepareData batch).2).1
          = HandlerEnd.throws what →
        ∀ i, i < batch.length → Event.setExceptionMessage i what ∈ before.map Prod.fst) ∧
      perf.1.isPerfRecord = true ∧
      after.map Prod.fst = (List.range batch.length).map Event.signal ∧
      (∀ s ∈ perf :: after, ∀ (i : Nat) (q : DataPacket), batch[i]? = some q →
        ∃ o, (runAllocs (handler (prepareData batch).1).allocs (prepareData batch).2).2[i]?
            = some o ∧
          s.2[i]? = some ⟨q.name, q.input, o,
            match (invoke handler (prepareData batch).1 (prepareData batch).2).1 with
            | HandlerEnd.throws what => some what
            | _ => q.exceptionMessage⟩) ∧
      ∀ i, ((before ++ perf :: after).map Prod.fst).count (Event.signal i)
        = if i < batch.length then 1 else 0 := by
  obtain ⟨handler, hfind, hres⟩ := admitted_find m name hadm
  have hne := hstd handler hfind
  obtain ⟨before, perf, after, hsteps, hhead, hbefore, hset, hperf, hafter, hstate⟩ :=
    processBatchSteps_shape handler name batch hne
  refine ⟨handler, before, perf, after, hres, hsteps, ?_, hhead, hbefore, hset, hperf, hafter,
    hstate, ?_⟩
  · rw [processQueue_resolved m name batch rest handler hres hne, ← hsteps]
    rfl
  · intro i
    rw [List.map_append, List.map_cons, hafter]
    apply count_signal_shape
    · intro e he
      obtain ⟨s, hs, hse⟩ := List.mem_map.mp he
      rw [← hse]
      exact (hbefore s hs).1
    · cases hp : perf.1 with
      | signal j => rw [hp] at hperf; simp [Event.isPerfRecord] at hperf
      | invoked a b => rfl
      | setExceptionMessage a b => rfl
      | perfRecord a b c d => rfl

/-- Witness for C2: with "sum" loaded and a request for it pushed by `process`,
an iteration on a batch of two requests, the handler giving request 0 the
output byte 9, has the invocation, the performance record and the two signals,
in this order, and nothing else. -/
theorem processQueue_signals_each_once_witness :
    Admitted (HandlerMap.empty.assign "sum" fun _ => ⟨[⟨0, 1, [9]⟩], HandlerEnd.returns⟩) "sum" ∧
      (processQueue (HandlerMap.empty.assign "sum" fun _ => ⟨[⟨0, 1, [9]⟩], HandlerEnd.returns⟩)
        [PopResult.batch "sum" [⟨"sum", [1], [], none⟩, ⟨"sum", [2, 3], [], none⟩]]).1
        = [Event.invoked "sum" 2, Event.perfRecord "sum" 3 1 2, Event.signal 0, Event.signal 1] ∧
      (processBatch (fun _ => ⟨[⟨0, 1, [9]⟩], HandlerEnd.returns⟩) "sum"
        [⟨"sum", [1], [], none⟩, ⟨"sum", [2, 3], [], none⟩]).1
        = [⟨"sum", [1], [9], none⟩, ⟨"sum", [2, 3], [], none⟩] ∧
      ∃ handler before perf after,
        getHandlerByName
            (HandlerMap.empty.assign "sum" fun _ => ⟨[⟨0, 1, [9]⟩], HandlerEnd.returns⟩) "sum"
          = Except.ok handler ∧
        processBatchSteps handler "sum" [⟨"sum", [1], [], none⟩, ⟨"sum", [2, 3], [], none⟩]
          = before ++ perf :: after ∧
        after.map Prod.fst = (List.range 2).map Event.signal := by
  have hadm : Admitted
      (HandlerMap.empty.assign "sum" fun _ => ⟨[⟨0, 1, [9]⟩], HandlerEnd.returns⟩) "sum" :=
    ⟨HandlerMap.empty.assign "sum" fun _ => ⟨[⟨0, 1, [9]⟩], HandlerEnd.returns⟩, [], [1], id, 0,
      by decide, rfl⟩
  refine ⟨hadm, by decide, by decide, ?_⟩
  obtain ⟨handler, before, perf, after, h1, h2, _, _, _, _, _, h8, _⟩ :=
    processQueue_signals_each_once
      (HandlerMap.empty.assign "sum" fun _ => ⟨[⟨0, 1, [9]⟩], HandlerEnd.returns⟩) "sum"
      [⟨"sum", [1], [], none⟩, ⟨"sum", [2, 3], [], none⟩] [] hadm
      (by
        intro handler hfind
        have hh : handler = fun _ => ⟨[⟨0, 1, [9]⟩], HandlerEnd.returns⟩ :=
          (Option.some.inj hfind).symm
        rw [hh]
        decide)
  exact ⟨handler, before, perf, after, h1, h2, h8⟩

/-- C2 fails as stated: "sum" is loaded with a handler that throws an object
that is no `std::exception`, and two requests for it are pushed by `process`
and popped as one batch.  The invocation is the only event of the iteration:
there is no performance record, and neither request is signaled. -/
theorem processQueue_other_throw_unsignaled :
    Effect.push "sum" [1] ∈
        process (loadHandler (fun _ => some fun _ => ⟨[], HandlerEnd.throwsOther⟩)
          HandlerMap.empty "sum").handlers "sum" [1] id 0 ∧
      Effect.push "sum" [2, 3] ∈
        process (loadHandler (fun _ => some fun _ => ⟨[], HandlerEnd.throwsOther⟩)
          HandlerMap.empty "sum").handlers "sum" [2, 3] id 0 ∧
      (processQueue (loadHandler (fun _ => some fun _ => ⟨[], HandlerEnd.throwsOther⟩)
          HandlerMap.empty "sum").handlers
        [PopResult.batch "sum" [⟨"sum", [1], [], none⟩, ⟨"sum", [2, 3], [], none⟩],
         PopResult.interrupted]).1
        = [Event.invoked "sum" 2] ∧
      (processQueue (loadHandler (fun _ => some fun _ => ⟨[], HandlerEnd.throwsOther⟩)
          HandlerMap.empty "sum").handlers
        [PopResult.batch "sum" [⟨"sum", [1], [], none⟩, ⟨"sum", [2, 3], [], none⟩],
         PopResult.interrupted]).1.count (Event.signal 0) = 0 := by
  decide

/-- C8, as the code has it.  For a request that completes without a failure
message and whose output has fewer than `0xFFFFFFFF` bytes, `process` pushes
the request, waits, adds the data-log record and writes the output length,
the output bytes and the elapsed time; the first word written is the number
of output bytes written after it and differs from the sentinel. -/
theorem process_success_first_word (m : HandlerMap) (handlerName : String) (input : Data)
    (served : DataPacket → DataPacket) (elapsed : Nat)
    (hfind : (m.find handlerName).isSome)
    (hok : (served ⟨handlerName, input, [], none⟩).exceptionMessage = none)
    (hsize : (served ⟨handlerName, input, [], none⟩).output.length < 0xFFFFFFFF) :
    process m handlerName input served elapsed
        = [Effect.push handlerName input, Effect.wait,
           Effect.addRecord handlerName input (served ⟨handlerName, input, [], none⟩).output,
           Effect.writeUInt32 (served ⟨handlerName, input, [], none⟩).output.length,
           Effect.writeData (served ⟨handlerName, input, [], none⟩).output,
           Effect.writeDouble elapsed] ∧
      (served ⟨handlerName, input, [], none⟩).output.length ≠ FAIL_FLAG := by
  cases hf : m.find handlerName with
  | none => simp [hf] at hfind
  | some h =>
    have hmod : (served ⟨handlerName, input, [], none⟩).output.length % 2 ^ 32
        = (served ⟨handlerName, input, [], none⟩).output.length := by
      apply Nat.mod_eq_of_lt
      omega
    refine ⟨?_, ?_⟩
    · simp only [process, hf, DataPacket.ExceptionThrown, hok, hmod]
      simp
    · unfold FAIL_FLAG
      omega

/-- Witness for C8: with "sum" loaded, a request served with the three output
bytes 7, 8, 9 is answered by the length 3, the bytes and the time. -/
theorem process_success_first_word_witness :
    process (HandlerMap.empty.assign "sum" fun _ => ⟨[], HandlerEnd.returns⟩) "sum" [1]
        (fun p => ⟨p.name, p.input, [7, 8, 9], none⟩) 5
      = [Effect.push "sum" [1], Effect.wait, Effect.addRecord "sum" [1] [7, 8, 9],
         Effect.writeUInt32 3, Effect.writeData [7, 8, 9], Effect.writeDouble 5] :=
  (process_success_first_word (HandlerMap.empty.assign "sum" fun _ => ⟨[], HandlerEnd.returns⟩)
    "sum" [1] (fun p => ⟨p.name, p.input, [7, 8, 9], none⟩) 5 (by decide) (by decide)
    (by decide)).1

theorem processBatch_idle_events (name : String) (a b : Data) :
    (processBatch (fun _ => ⟨[], HandlerEnd.returns⟩) name
        [⟨name, a, [], none⟩, ⟨name, b, [], none⟩]).2
      = [Event.invoked name 2, Event.perfRecord name ((a.length + b.length) % 2 ^ 32) 0 2,
         Event.signal 0, Event.signal 1] := by
  rw [processBatch_events]
  simp only [prepareData, invoke, runAllocs, accumulate_zero, List.map_cons, List.map_nil,
    List.length_cons, List.length_nil, List.sum_cons, List.sum_nil]
  simp [List.range_succ]

theorem processBatch_alloc_one (name : String) (input : Data) (n : Nat) (hn : n ≠ 0) :
    (processBatch (fun _ => ⟨[⟨0, n, []⟩], HandlerEnd.returns⟩) name
        [⟨name, input, [], none⟩]).1
      = [⟨name, input, List.replicate n 0, none⟩] := by
  have hslots : invoke (fun _ => ⟨[⟨0, n, []⟩], HandlerEnd.returns⟩) [input] [[]]
      = (HandlerEnd.returns, [List.replicate n 0]) := by
    simp [invoke, runAllocs, allocVector, hn, store, resize]
  rw [processBatch_fst]
  simp only [prepareData, List.map_cons, List.map_nil, hslots, writeBack,
    List.zipWith_cons_cons, List.zipWith_nil_right]

theorem process_served_writes (m : HandlerMap) (name : String) (input out : Data)
    (served : DataPacket → DataPacket) (elapsed : Nat) (hfind : (m.find name).isSome)
    (hserved : served ⟨name, input, [], none⟩ = ⟨name, input, out, none⟩) :
    (process m name input served elapsed).filter Effect.isWrite
      = [Effect.writeUInt32 (out.length % 2 ^ 32), Effect.writeData out,
         Effect.writeDouble elapsed] := by
  cases hf : m.find name with
  | none => simp [hf] at hfind
  | some h =>
    simp only [process, hf, hserved, DataPacket.ExceptionThrown]
    simp [Effect.isWrite]

/-- C8 fails as stated: a handler that asks `allocVector` for `0xFFFFFFFF`
output bytes and returns leaves an output of that size and no failure message,
and `process` then writes `0xFFFFFFFF`, the sentinel, as the first word of a
success response. -/
theorem process_success_writes_sentinel :
    (processBatch (fun _ => ⟨[⟨0, 4294967295, []⟩], HandlerEnd.returns⟩) "sum"
        [⟨"sum", [1], [], none⟩]).1
        = [⟨"sum", [1], List.replicate 4294967295 0, none⟩] ∧
      (process (HandlerMap.empty.assign "sum"
          fun _ => ⟨[⟨0, 4294967295, []⟩], HandlerEnd.returns⟩) "sum" [1]
          (fun p => ((processBatch (fun _ => ⟨[⟨0, 4294967295, []⟩], HandlerEnd.returns⟩) "sum"
            [p]).1.head?).getD p) 0).filter Effect.isWrite
        = [Effect.writeUInt32 0xFFFFFFFF, Effect.writeData (List.replicate 4294967295 0),
           Effect.writeDouble 0] := by
  have hbatch := processBatch_alloc_one "sum" [1] 4294967295 (by decide)
  refine ⟨hbatch, ?_⟩
  have h := process_served_writes (HandlerMap.empty.assign "sum"
      fun _ => ⟨[⟨0, 4294967295, []⟩], HandlerEnd.returns⟩) "sum" [1]
    (List.replicate 4294967295 0)
    (fun p => ((processBatch (fun _ => ⟨[⟨0, 4294967295, []⟩], HandlerEnd.returns⟩) "sum"
      [p]).1.head?).getD p) 0 (by decide) (by show ((processBatch _ "sum" [_]).1.head?).getD _ = _; rw [hbatch]; rfl)
  rw [List.length_replicate] at h
  exact h

/-- C9. Two requests of one batch with inputs of `2 ^ 31` bytes each, served
by a handler that produces no output: the total of the input sizes is
`2 ^ 32`, and the performance record shows 0 input bytes, the sum having gone
through the 32-bit accumulator of `std::accumulate(..., 0u, addSize)`. -/
theorem processQueue_perfRecord_total_wraps :
    (processBatch (fun _ => ⟨[], HandlerEnd.returns⟩) "sum"
        [⟨"sum", List.replicate 2147483648 0, [], none⟩,
         ⟨"sum", List.replicate 2147483648 0, [], none⟩]).2
        = [Event.invoked "sum" 2, Event.perfRecord "sum" 0 0 2,
           Event.signal 0, Event.signal 1] ∧
      (List.replicate 2147483648 0 : Data).length + (List.replicate 2147483648 0 : Data).length
        = 4294967296 := by
  have h := processBatch_idle_events "sum" (List.replicate 2147483648 0)
    (List.replicate 2147483648 0)
  rw [List.length_replicate] at h
  refine ⟨h, ?_⟩
  rw [List.length_replicate]

end MainServer
